import Mathlib

/-!
Verification development for the visual-search engine of the mcw-takeoff-tool
repository (`src/server/src/scripts/visual_search.py`).

The shallow embedding below translates the `visual_search` function.  OpenCV
primitives (`cv2.matchTemplate`, `cv2.warpAffine`) are external library calls:
the correlation surface produced by `cv2.matchTemplate` for each rotated
template is abstracted as an oracle `raw : ℕ → ℕ → ℕ → ℚ` giving the raw score
at (rotation, x, y); all code of `visual_search.py` surrounding those calls
(rotated-dimension arithmetic, thresholding, score inversion, the detection
cap, distance clustering, and non-maximum suppression) is translated directly.
Python floats are idealized as exact rationals (in particular the literal
`0.8` is modelled as `4/5`), and `np.sqrt(d) < m` with `m ≥ 0` is modelled by
the equivalent squared comparison `d < m^2`.  File-existence and image-decode
failures (pure I/O, lines 53-78 of the source) are elided.
-/

set_option maxHeartbeats 1000000

namespace VisualSearch

/-- Matching methods recognized by `method_map` (visual_search.py lines 96-103).
`TM_SQDIFF`-family scores are lower-is-better and get inverted. -/
inductive Method
  | ccoeff
  | ccorr
  | sqdiff
deriving DecidableEq, Repr

/-- The `method_map` dictionary (lines 96-103). -/
def methodMap : List (String × Method) :=
  [("cv2.TM_CCOEFF_NORMED", Method.ccoeff),
   ("cv2.TM_CCORR_NORMED", Method.ccorr),
   ("cv2.TM_SQDIFF_NORMED", Method.sqdiff),
   ("TM_CCOEFF_NORMED", Method.ccoeff),
   ("TM_CCORR_NORMED", Method.ccorr),
   ("TM_SQDIFF_NORMED", Method.sqdiff)]

/-- `method_map.get(method, cv2.TM_CCOEFF_NORMED)` (line 105): unknown method
strings fall back to `TM_CCOEFF_NORMED`. -/
def parseMethod (s : String) : Method :=
  match methodMap.find? (fun p => p.1 == s) with
  | some p => p.2
  | none => Method.ccoeff

/-- Grayscale image: dimensions plus a pixel intensity map. -/
structure Image where
  width : ℕ
  height : ℕ
  pixel : ℕ → ℕ → ℕ

/-- Absolute sine and cosine of the right angles used by the rotation loop
(lines 124-125); for 90/270 degrees |sin| = 1, |cos| = 0, for 180 degrees
|sin| = 0, |cos| = 1. -/
def absSinCos (rot : ℕ) : ℕ × ℕ :=
  if rot = 90 ∨ rot = 270 then (1, 0) else (0, 1)

/-- Rotated bounding dimensions (lines 114-127):
`rotated_width = int(h*sin + w*cos)`, `rotated_height = int(h*cos + w*sin)`;
for rotation 0 the template is used as-is. -/
def rotatedDims (rot w h : ℕ) : ℕ × ℕ :=
  if rot = 0 then (w, h)
  else (h * (absSinCos rot).1 + w * (absSinCos rot).2,
        h * (absSinCos rot).2 + w * (absSinCos rot).1)

/-- Template rotation (lines 112-134).  Rotation 0 reuses the template
unchanged (line 115).  The other branches model `cv2.warpAffine` with the
exact right-angle rotation about the center onto the enlarged canvas. -/
def rotateTemplate (t : Image) (rot : ℕ) : Image :=
  if rot = 0 then t
  else
    { width := (rotatedDims rot t.width t.height).1
      height := (rotatedDims rot t.width t.height).2
      pixel := fun x y =>
        if rot = 90 then t.pixel y ((rotatedDims rot t.width t.height).1 - 1 - x)
        else if rot = 180 then t.pixel (t.width - 1 - x) (t.height - 1 - y)
        else t.pixel ((rotatedDims rot t.width t.height).2 - 1 - y) x }

/-- Raw detection record appended to `all_detections` (lines 151-158). -/
structure Detection where
  x : ℕ
  y : ℕ
  width : ℕ
  height : ℕ
  confidence : ℚ
  rotation : ℕ
deriving DecidableEq, Repr

/-- Failure outcomes of `visual_search` relevant to the embedded code paths:
`invalidThreshold` is the threshold check (lines 46-50), `templateTooLarge`
the size check (lines 85-89), and `scanFailure` the generic
`"Visual search failed: ..."` result produced when `cv2.matchTemplate`
raises inside the rotation loop and the outer `except` catches it
(lines 267-274). -/
inductive SearchError
  | invalidThreshold
  | templateTooLarge
  | scanFailure
deriving DecidableEq, Repr

/-- Score used for thresholding: for squared-difference methods the raw
score is inverted, `result = 1 - result` (lines 139-141). -/
def scoreAt (raw : ℕ → ℕ → ℕ → ℚ) (invert : Bool) (rot x y : ℕ) : ℚ :=
  if invert then 1 - raw rot x y else raw rot x y

/-- Window origins of the `cv2.matchTemplate` result grid, in the row-major
order produced by `np.where` and `zip(*locations[::-1])` (lines 144-147):
y ascending, x ascending within each row.  The grid has
`(imgH - rh + 1) × (imgW - rw + 1)` entries. -/
def windowList (imgW imgH rw rh : ℕ) : List (ℕ × ℕ) :=
  (List.range (imgH - rh + 1)).flatMap
    (fun y => (List.range (imgW - rw + 1)).map (fun x => (x, y)))

/-- One iteration of the rotation loop (lines 112-158): rotate, match,
invert if needed, and keep every window whose score meets the threshold.
`cv2.matchTemplate` raises when the rotated template exceeds the image in
one dimension (the only reachable over-size shape given the line-85
pre-check), which the outer handler turns into the generic failure. -/
def scanRotation (imgW imgH tw th : ℕ) (raw : ℕ → ℕ → ℕ → ℚ) (invert : Bool)
    (thr : ℚ) (rot : ℕ) : Except SearchError (List Detection) :=
  if imgW < (rotatedDims rot tw th).1 ∨ imgH < (rotatedDims rot tw th).2 then
    Except.error SearchError.scanFailure
  else
    Except.ok ((windowList imgW imgH (rotatedDims rot tw th).1 (rotatedDims rot tw th).2).filterMap
      (fun p =>
        if thr ≤ scoreAt raw invert rot p.1 p.2 then
          some ⟨p.1, p.2, (rotatedDims rot tw th).1, (rotatedDims rot tw th).2,
                scoreAt raw invert rot p.1 p.2, rot⟩
        else none))

/-- The `for rotation in rotations` loop (lines 109-158), pooling the four
orientation scans into `all_detections`; the first raised error aborts. -/
def scanAll (imgW imgH tw th : ℕ) (raw : ℕ → ℕ → ℕ → ℚ) (invert : Bool)
    (thr : ℚ) : Except SearchError (List Detection) := do
  let a ← scanRotation imgW imgH tw th raw invert thr 0
  let b ← scanRotation imgW imgH tw th raw invert thr 90
  let c ← scanRotation imgW imgH tw th raw invert thr 180
  let d ← scanRotation imgW imgH tw th raw invert thr 270
  return a ++ b ++ c ++ d

/-- Stable insertion for descending-key order: an element is placed after
every element whose key is ≥ its own, matching the stability of Python
`sorted(key=..., reverse=True)`. -/
def insertDescBy {α : Type} (key : α → ℚ) (d : α) : List α → List α
  | [] => [d]
  | e :: es => if key d < key e then e :: insertDescBy key d es else d :: e :: es

/-- Stable sort by descending key, the model of
`sorted(..., key=..., reverse=True)` (lines 163, 172, 225). -/
def sortDescBy {α : Type} (key : α → ℚ) (l : List α) : List α :=
  l.foldr (insertDescBy key) []

/-- The global detection cap (lines 160-163): if more than 1000 detections
were pooled, sort by (already inverted) confidence and keep the top 1000. -/
def capDetections (ds : List Detection) : List Detection :=
  if 1000 < ds.length then (sortDescBy Detection.confidence ds).take 1000 else ds

/-- Round-half-to-even on rationals, the rounding mode of Python `round`. -/
def roundHalfEven (q : ℚ) : ℤ :=
  if q - ⌊q⌋ < 1/2 then ⌊q⌋
  else if 1/2 < q - ⌊q⌋ then ⌊q⌋ + 1
  else if ⌊q⌋ % 2 = 0 then ⌊q⌋ else ⌊q⌋ + 1

/-- Python `round(x, 4)` (line 210). -/
def pyRound4 (q : ℚ) : ℚ := (roundHalfEven (q * 10000) : ℚ) / 10000

/-- A match object (lines 208-215): numeric part of the `match_{id}` string,
rounded confidence, normalized bounding box, pixel coordinates (stored by
the source as exact floats of the integers, recovered by `int(...)` in the
suppression pass, hence kept as naturals here), and rotation. -/
structure MatchRec where
  id : ℕ
  confidence : ℚ
  bboxX : ℚ
  bboxY : ℚ
  bboxW : ℚ
  bboxH : ℚ
  px : ℕ
  py : ℕ
  pw : ℕ
  ph : ℕ
  rotation : ℕ
deriving DecidableEq, Repr

/-- Construction of a match from an accepted detection (lines 192-215). -/
def mkMatch (imgW imgH idn : ℕ) (d : Detection) : MatchRec :=
  { id := idn
    confidence := pyRound4 d.confidence
    bboxX := (d.x : ℚ) / (imgW : ℚ)
    bboxY := (d.y : ℚ) / (imgH : ℚ)
    bboxW := (d.width : ℚ) / (imgW : ℚ)
    bboxH := (d.height : ℚ) / (imgH : ℚ)
    px := d.x
    py := d.y
    pw := d.width
    ph := d.height
    rotation := d.rotation }

/-- Squared Euclidean distance between two pixel positions. -/
def distSq (x1 y1 x2 y2 : ℕ) : ℚ :=
  ((x1 : ℚ) - (x2 : ℚ))^2 + ((y1 : ℚ) - (y2 : ℚ))^2

/-- The duplicate test of the clustering pass (lines 183-187):
`sqrt(dsq) < min_distance` with `min_distance ≥ 0`, written as the
equivalent squared comparison. -/
def tooClose (x y : ℕ) (minDist : ℚ) (centers : List (ℕ × ℕ)) : Bool :=
  centers.any (fun c => decide (distSq x y c.1 c.2 < minDist^2))

/-- State of the clustering loop: `detected_positions`, `matches`, and
`match_id` (lines 167-169). -/
structure ClusterState where
  centers : List (ℕ × ℕ)
  ms : List MatchRec
  nextId : ℕ

/-- Body of the clustering loop (lines 174-217): a detection becomes a new
cluster center unless it is within `max(w, h) * 0.8` of an accepted center. -/
def clusterStep (imgW imgH : ℕ) (st : ClusterState) (d : Detection) : ClusterState :=
  if tooClose d.x d.y (((max d.width d.height : ℕ) : ℚ) * (4/5)) st.centers then st
  else ⟨st.centers ++ [(d.x, d.y)], st.ms ++ [mkMatch imgW imgH st.nextId d], st.nextId + 1⟩

/-- The distance-based deduplication pass (lines 165-217): sort detections
by descending confidence and fold the greedy acceptance step. -/
def clusterPass (imgW imgH : ℕ) (ds : List Detection) : List MatchRec :=
  ((sortDescBy Detection.confidence ds).foldl (clusterStep imgW imgH) ⟨[], [], 0⟩).ms

/-- Rectangle intersection area (lines 242-244); natural subtraction
truncates at zero exactly like the source's `max(0, ...)`. -/
def overlapArea (x y w h ux uy uw uh : ℕ) : ℕ :=
  (min (x + w) (ux + uw) - max x ux) * (min (y + h) (uy + uh) - max y uy)

/-- The suppression test (lines 241-252): overlap ratio is intersection
area over the candidate's own area (0 when that area is 0), and the
candidate is rejected when the ratio exceeds 0.5. -/
def overlapTooBig (m u : MatchRec) : Bool :=
  decide ((1 : ℚ)/2 <
    (if 0 < m.pw * m.ph
     then ((overlapArea m.px m.py m.pw m.ph u.px u.py u.pw u.ph : ℕ) : ℚ) / ((m.pw * m.ph : ℕ) : ℚ)
     else 0))

/-- Body of the non-maximum-suppression loop (lines 227-255). -/
def nmsStep (kept : List MatchRec) (m : MatchRec) : List MatchRec :=
  if kept.any (fun u => overlapTooBig m u) then kept else kept ++ [m]

/-- The overlap suppression pass (lines 219-255): sort by descending
confidence and keep each match that does not overlap a kept match by more
than half its own area. -/
def nmsPass (ms : List MatchRec) : List MatchRec :=
  (sortDescBy MatchRec.confidence ms).foldl nmsStep []

/-- The success payload (lines 257-265). -/
structure SearchResult where
  matches' : List MatchRec
  totalMatches : ℕ
  imageWidth : ℕ
  imageHeight : ℕ
  templateWidth : ℕ
  templateHeight : ℕ
deriving DecidableEq, Repr

/-- The `visual_search` function (lines 31-274) over loaded images: the
target and template enter through their dimensions and through the
`raw` score oracle abstracting `cv2.matchTemplate` on the rotated
templates. -/
def visual_search (imgW imgH tw th : ℕ) (thr : ℚ) (method : String)
    (raw : ℕ → ℕ → ℕ → ℚ) : Except SearchError SearchResult :=
  if thr < 0 ∨ 1 < thr then Except.error SearchError.invalidThreshold
  else if imgW < tw ∨ imgH < th then Except.error SearchError.templateTooLarge
  else
    match scanAll imgW imgH tw th raw (decide (parseMethod method = Method.sqdiff)) thr with
    | Except.error e => Except.error e
    | Except.ok pool =>
      Except.ok
        { matches' := nmsPass (clusterPass imgW imgH (capDetections pool))
          totalMatches := (nmsPass (clusterPass imgW imgH (capDetections pool))).length
          imageWidth := imgW
          imageHeight := imgH
          templateWidth := tw
          templateHeight := th }

/-! ### Lemmas about the stable descending sort -/

theorem insertDescBy_perm {α : Type} (key : α → ℚ) (d : α) (l : List α) :
    (insertDescBy key d l).Perm (d :: l) := by
  induction l with
  | nil => exact List.Perm.refl _
  | cons e es ih =>
    unfold insertDescBy
    by_cases h : key d < key e
    · rw [if_pos h]
      exact (ih.cons e).trans (List.Perm.swap d e es)
    · rw [if_neg h]

theorem sortDescBy_perm {α : Type} (key : α → ℚ) (l : List α) :
    (sortDescBy key l).Perm l := by
  induction l with
  | nil => exact List.Perm.refl _
  | cons a l ih =>
    exact (insertDescBy_perm key a (sortDescBy key l)).trans (ih.cons a)

theorem mem_sortDescBy {α : Type} {key : α → ℚ} {l : List α} {a : α} :
    a ∈ sortDescBy key l ↔ a ∈ l :=
  (sortDescBy_perm key l).mem_iff

theorem insertDescBy_pairwise {α : Type} {key : α → ℚ} {d : α} {l : List α}
    (h : l.Pairwise (fun a b => key b ≤ key a)) :
    (insertDescBy key d l).Pairwise (fun a b => key b ≤ key a) := by
  induction l with
  | nil => simp [insertDescBy]
  | cons e es ih =>
    rw [List.pairwise_cons] at h
    unfold insertDescBy
    by_cases hde : key d < key e
    · rw [if_pos hde, List.pairwise_cons]
      refine ⟨fun b hb => ?_, ih h.2⟩
      rcases List.mem_cons.mp ((insertDescBy_perm key d es).mem_iff.mp hb) with rfl | hbe
      · exact le_of_lt hde
      · exact h.1 b hbe
    · rw [if_neg hde, List.pairwise_cons]
      refine ⟨fun b hb => ?_, List.pairwise_cons.mpr h⟩
      rcases List.mem_cons.mp hb with rfl | hbes
      · exact le_of_not_lt hde
      · exact le_trans (h.1 b hbes) (le_of_not_lt hde)

theorem sortDescBy_pairwise {α : Type} (key : α → ℚ) (l : List α) :
    (sortDescBy key l).Pairwise (fun a b => key b ≤ key a) := by
  induction l with
  | nil => simp [sortDescBy]
  | cons a l ih => exact insertDescBy_pairwise ih

theorem sortDescBy_eq_of_sorted {α : Type} {key : α → ℚ} {l : List α}
    (h : l.Pairwise (fun a b => key b ≤ key a)) :
    sortDescBy key l = l := by
  induction l with
  | nil => rfl
  | cons a l ih =>
    rw [List.pairwise_cons] at h
    show insertDescBy key a (sortDescBy key l) = a :: l
    rw [ih h.2]
    cases l with
    | nil => rfl
    | cons e es =>
      unfold insertDescBy
      rw [if_neg (not_lt.mpr (h.1 e (List.mem_cons_self e es)))]

/-! ### Lemmas about Python rounding -/

theorem roundHalfEven_cases (q : ℚ) :
    roundHalfEven q = ⌊q⌋ ∨ roundHalfEven q = ⌊q⌋ + 1 := by
  unfold roundHalfEven
  split_ifs <;> simp

theorem le_roundHalfEven (q : ℚ) : q - 1/2 ≤ (roundHalfEven q : ℚ) := by
  have hfl : (⌊q⌋ : ℚ) ≤ q := Int.floor_le q
  have hfu : q < (⌊q⌋ : ℚ) + 1 := Int.lt_floor_add_one q
  unfold roundHalfEven
  split_ifs with h1 h2 h3 <;> push_cast <;> linarith

theorem roundHalfEven_le (q : ℚ) : (roundHalfEven q : ℚ) ≤ q + 1/2 := by
  have hfl : (⌊q⌋ : ℚ) ≤ q := Int.floor_le q
  have hfu : q < (⌊q⌋ : ℚ) + 1 := Int.lt_floor_add_one q
  unfold roundHalfEven
  split_ifs with h1 h2 h3 <;> push_cast <;> linarith

theorem roundHalfEven_mono {q1 q2 : ℚ} (h : q1 ≤ q2) :
    roundHalfEven q1 ≤ roundHalfEven q2 := by
  have hn : ⌊q1⌋ ≤ ⌊q2⌋ := Int.floor_le_floor h
  rcases lt_or_eq_of_le hn with hlt | heq
  · have h1 := roundHalfEven_cases q1
    have h2 := roundHalfEven_cases q2
    omega
  · unfold roundHalfEven
    rw [← heq]
    split_ifs <;> first | omega | (exfalso; linarith)

theorem pyRound4_mono {q1 q2 : ℚ} (h : q1 ≤ q2) : pyRound4 q1 ≤ pyRound4 q2 := by
  unfold pyRound4
  have := roundHalfEven_mono (mul_le_mul_of_nonneg_right h (by norm_num : (0:ℚ) ≤ 10000))
  have hc : ((roundHalfEven (q1 * 10000) : ℚ)) ≤ ((roundHalfEven (q2 * 10000) : ℚ)) := by
    exact_mod_cast this
  linarith

theorem pyRound4_ge (q : ℚ) : q - 1/20000 ≤ pyRound4 q := by
  unfold pyRound4
  have := le_roundHalfEven (q * 10000)
  linarith

theorem pyRound4_le (q : ℚ) : pyRound4 q ≤ q + 1/20000 := by
  unfold pyRound4
  have := roundHalfEven_le (q * 10000)
  linarith

/-! ### Lemmas about the scanning phase -/

theorem mem_windowList {imgW imgH rw rh x y : ℕ} :
    (x, y) ∈ windowList imgW imgH rw rh ↔ x < imgW - rw + 1 ∧ y < imgH - rh + 1 := by
  unfold windowList
  simp only [List.mem_flatMap, List.mem_map, List.mem_range, Prod.mk.injEq]
  constructor
  · rintro ⟨y', hy', x', hx', rfl, rfl⟩
    exact ⟨hx', hy'⟩
  · rintro ⟨hx, hy⟩
    exact ⟨y, hy, x, hx, rfl, rfl⟩

theorem scanRotation_ok_fits {imgW imgH tw th raw invert thr rot l}
    (h : scanRotation imgW imgH tw th raw invert thr rot = Except.ok l) :
    (rotatedDims rot tw th).1 ≤ imgW ∧ (rotatedDims rot tw th).2 ≤ imgH := by
  unfold scanRotation at h
  split at h
  · exact absurd h (by simp)
  · rename_i hcond
    push_neg at hcond
    exact ⟨le_of_not_lt (fun hh => absurd hcond.1 (not_le.mpr hh)),
           le_of_not_lt (fun hh => absurd hcond.2 (not_le.mpr hh))⟩

theorem scanRotation_ok_of_fits {imgW imgH tw th raw invert thr rot}
    (h1 : (rotatedDims rot tw th).1 ≤ imgW) (h2 : (rotatedDims rot tw th).2 ≤ imgH) :
    ∃ l, scanRotation imgW imgH tw th raw invert thr rot = Except.ok l := by
  unfold scanRotation
  rw [if_neg (by push_neg; exact ⟨h1, h2⟩)]
  exact ⟨_, rfl⟩

theorem scanRotation_mem {imgW imgH tw th raw invert thr rot l d}
    (h : scanRotation imgW imgH tw th raw invert thr rot = Except.ok l) (hd : d ∈ l) :
    d.width = (rotatedDims rot tw th).1 ∧ d.height = (rotatedDims rot tw th).2 ∧
    d.rotation = rot ∧ thr ≤ d.confidence ∧
    d.confidence = scoreAt raw invert rot d.x d.y ∧
    d.x < imgW - (rotatedDims rot tw th).1 + 1 ∧
    d.y < imgH - (rotatedDims rot tw th).2 + 1 := by
  unfold scanRotation at h
  split at h
  · exact absurd h (by simp)
  · rw [Except.ok.injEq] at h
    subst h
    rcases List.mem_filterMap.mp hd with ⟨p, hp, hmk⟩
    split at hmk
    · rename_i hthr
      rw [Option.some.injEq] at hmk
      subst hmk
      obtain ⟨x, y⟩ := p
      have hw := mem_windowList.mp hp
      exact ⟨rfl, rfl, rfl, hthr, rfl, hw.1, hw.2⟩
    · exact absurd hmk (by simp)

theorem scanAll_ok_elim {imgW imgH tw th raw invert thr pool}
    (h : scanAll imgW imgH tw th raw invert thr = Except.ok pool) :
    ∃ a b c d,
      scanRotation imgW imgH tw th raw invert thr 0 = Except.ok a ∧
      scanRotation imgW imgH tw th raw invert thr 90 = Except.ok b ∧
      scanRotation imgW imgH tw th raw invert thr 180 = Except.ok c ∧
      scanRotation imgW imgH tw th raw invert thr 270 = Except.ok d ∧
      pool = a ++ b ++ c ++ d := by
  unfold scanAll at h
  rcases h0 : scanRotation imgW imgH tw th raw invert thr 0 with e | a <;>
    rw [h0] at h <;> simp only [bind, Except.bind] at h
  · exact absurd h (by simp)
  rcases h90 : scanRotation imgW imgH tw th raw invert thr 90 with e | b <;>
    rw [h90] at h <;> simp only [bind, Except.bind] at h
  · exact absurd h (by simp)
  rcases h180 : scanRotation imgW imgH tw th raw invert thr 180 with e | c <;>
    rw [h180] at h <;> simp only [bind, Except.bind] at h
  · exact absurd h (by simp)
  rcases h270 : scanRotation imgW imgH tw th raw invert thr 270 with e | d <;>
    rw [h270] at h <;> simp only [bind, Except.bind] at h
  · exact absurd h (by simp)
  simp only [pure, Except.pure, Except.ok.injEq] at h
  exact ⟨a, b, c, d, rfl, rfl, rfl, rfl, h.symm⟩

theorem rotatedDims_pair (rot tw th : ℕ) (hrot : rot = 0 ∨ rot = 90 ∨ rot = 180 ∨ rot = 270) :
    rotatedDims rot tw th = (tw, th) ∨ rotatedDims rot tw th = (th, tw) := by
  rcases hrot with rfl | rfl | rfl | rfl <;> simp [rotatedDims, absSinCos]

theorem scanAll_mem {imgW imgH tw th raw invert thr pool d}
    (h : scanAll imgW imgH tw th raw invert thr = Except.ok pool) (hd : d ∈ pool) :
    ((d.width, d.height) = (tw, th) ∨ (d.width, d.height) = (th, tw)) ∧
    thr ≤ d.confidence ∧
    d.confidence = scoreAt raw invert d.rotation d.x d.y := by
  rcases scanAll_ok_elim h with ⟨a, b, c, e, h0, h90, h180, h270, rfl⟩
  have key : ∀ rot l, scanRotation imgW imgH tw th raw invert thr rot = Except.ok l →
      d ∈ l → (rot = 0 ∨ rot = 90 ∨ rot = 180 ∨ rot = 270) →
      ((d.width, d.height) = (tw, th) ∨ (d.width, d.height) = (th, tw)) ∧
      thr ≤ d.confidence ∧ d.confidence = scoreAt raw invert d.rotation d.x d.y := by
    intro rot l hl hdl hrot
    obtain ⟨hw, hh, hr, hthr, hconf, _, _⟩ := scanRotation_mem hl hdl
    refine ⟨?_, hthr, by rw [hr]; exact hconf⟩
    rcases rotatedDims_pair rot tw th hrot with hp | hp <;>
      [left; right] <;> rw [hw, hh, hp]
  rcases List.mem_append.mp hd with hd' | hd270
  · rcases List.mem_append.mp hd' with hd'' | hd180
    · rcases List.mem_append.mp hd'' with hd0 | hd90
      · exact key 0 a h0 hd0 (by norm_num)
      · exact key 90 b h90 hd90 (by norm_num)
    · exact key 180 c h180 hd180 (by norm_num)
  · exact key 270 e h270 hd270 (by norm_num)

/-! ### Lemmas about the detection cap -/

theorem capDetections_subset {ds : List Detection} {d : Detection}
    (h : d ∈ capDetections ds) : d ∈ ds := by
  unfold capDetections at h
  split at h
  · exact mem_sortDescBy.mp (List.mem_of_mem_take h)
  · exact h

theorem capDetections_length (ds : List Detection) :
    (capDetections ds).length ≤ 1000 ∧
    (¬ 1000 < ds.length → capDetections ds = ds) := by
  unfold capDetections
  split
  · rename_i hlen
    constructor
    · rw [List.length_take]
      exact min_le_left _ _
    · intro hc; exact absurd hlen hc
  · rename_i hlen
    exact ⟨le_of_not_lt hlen, fun _ => rfl⟩

theorem capDetections_top {ds : List Detection} {k d : Detection}
    (hk : k ∈ capDetections ds) (hd : d ∈ ds) (hdn : d ∉ capDetections ds) :
    d.confidence ≤ k.confidence := by
  by_cases hlen : 1000 < ds.length
  · rw [capDetections, if_pos hlen] at hk hdn
    have hsplit := List.take_append_drop 1000 (sortDescBy Detection.confidence ds)
    have hpw := sortDescBy_pairwise Detection.confidence ds
    rw [← hsplit] at hpw
    have hcross := (List.pairwise_append.mp hpw).2.2
    have hdsorted : d ∈ sortDescBy Detection.confidence ds := mem_sortDescBy.mpr hd
    rw [← hsplit] at hdsorted
    rcases List.mem_append.mp hdsorted with hdt | hdd
    · exact absurd hdt hdn
    · exact hcross k hk d hdd
  · rw [capDetections, if_neg hlen] at hdn
    exact absurd hd hdn

/-! ### Elimination of a successful `visual_search` run -/

theorem visual_search_ok_elim {imgW imgH tw th thr method raw r}
    (hok : visual_search imgW imgH tw th thr method raw = Except.ok r) :
    ∃ pool,
      scanAll imgW imgH tw th raw (decide (parseMethod method = Method.sqdiff)) thr
        = Except.ok pool ∧
      r.matches' = nmsPass (clusterPass imgW imgH (capDetections pool)) ∧
      r.totalMatches = (nmsPass (clusterPass imgW imgH (capDetections pool))).length ∧
      ¬(thr < 0 ∨ 1 < thr) ∧ ¬(imgW < tw ∨ imgH < th) := by
  unfold visual_search at hok
  split at hok
  · exact absurd hok (by simp)
  split at hok
  · exact absurd hok (by simp)
  rename_i hthr hsize
  rcases hs : scanAll imgW imgH tw th raw (decide (parseMethod method = Method.sqdiff)) thr
      with e | pool <;> rw [hs] at hok
  · exact absurd hok (by simp)
  · rw [Except.ok.injEq] at hok
    subst hok
    exact ⟨pool, rfl, rfl, rfl, hthr, hsize⟩

/-! ### Lemmas about the distance-clustering pass -/

theorem distSq_comm (x1 y1 x2 y2 : ℕ) : distSq x1 y1 x2 y2 = distSq x2 y2 x1 y1 := by
  unfold distSq
  ring

theorem tooClose_eq_false_iff {x y : ℕ} {minDist : ℚ} {centers : List (ℕ × ℕ)} :
    tooClose x y minDist centers = false ↔
      ∀ c ∈ centers, minDist^2 ≤ distSq x y c.1 c.2 := by
  unfold tooClose
  rw [List.any_eq_false]
  simp only [decide_eq_true_eq, not_lt]

theorem tooClose_eq_true_iff {x y : ℕ} {minDist : ℚ} {centers : List (ℕ × ℕ)} :
    tooClose x y minDist centers = true ↔
      ∃ c ∈ centers, distSq x y c.1 c.2 < minDist^2 := by
  unfold tooClose
  rw [List.any_eq_true]
  simp only [decide_eq_true_eq]

/-- Correspondence between an accepted detection and the match built from it. -/
def Embodies (d : Detection) (m : MatchRec) : Prop :=
  m.px = d.x ∧ m.py = d.y ∧ m.pw = d.width ∧ m.ph = d.height ∧
  m.confidence = pyRound4 d.confidence ∧ m.rotation = d.rotation

theorem embodies_mkMatch (imgW imgH idn : ℕ) (d : Detection) :
    Embodies d (mkMatch imgW imgH idn d) := by
  simp [Embodies, mkMatch]

/-- Loop invariant of the clustering pass: the accepted centers are the
positions of the emitted matches, ids are consecutive, every accepted match
is at least `0.8 * max(w, h)` (of its own footprint) away from every earlier
accepted match, and every match comes from a source detection. -/
structure ClusterInv (src : List Detection) (st : ClusterState) : Prop where
  centers_eq : st.centers = st.ms.map (fun m => (m.px, m.py))
  nextId_eq : st.nextId = st.ms.length
  ids : ∀ i (h : i < st.ms.length), (st.ms[i]).id = i
  far : st.ms.Pairwise (fun a b =>
    (((max b.pw b.ph : ℕ) : ℚ) * (4/5))^2 ≤ distSq a.px a.py b.px b.py)
  src_mem : ∀ m ∈ st.ms, ∃ d ∈ src, Embodies d m

theorem clusterInv_init (src : List Detection) : ClusterInv src ⟨[], [], 0⟩ := by
  refine ⟨rfl, rfl, ?_, List.Pairwise.nil, ?_⟩
  · intro i h
    exact absurd h (by simp)
  · intro m hm
    exact absurd hm (by simp)

theorem clusterStep_inv {src : List Detection} {st : ClusterState} {imgW imgH : ℕ}
    {d : Detection} (hinv : ClusterInv src st) (hd : d ∈ src) :
    ClusterInv src (clusterStep imgW imgH st d) := by
  unfold clusterStep
  by_cases htc : tooClose d.x d.y (((max d.width d.height : ℕ) : ℚ) * (4/5)) st.centers = true
  · rw [if_pos htc]
    exact hinv
  · rw [if_neg htc]
    have hfar := tooClose_eq_false_iff.mp (Bool.eq_false_iff.mpr htc)
    refine ⟨?_, ?_, ?_, ?_, ?_⟩
    · show st.centers ++ [(d.x, d.y)] = _
      rw [List.map_append, hinv.centers_eq]
      rfl
    · show st.nextId + 1 = _
      rw [List.length_append, hinv.nextId_eq]
      rfl
    · intro i h
      have hlen : i < st.ms.length + 1 := by simpa using h
      rcases Nat.lt_or_ge i st.ms.length with hi | hi
      · rw [List.getElem_append_left hi]
        exact hinv.ids i hi
      · have hieq : i = st.ms.length := by omega
        rw [List.getElem_concat_length st.ms _ i hieq]
        simp only [mkMatch]
        rw [hinv.nextId_eq]
        omega
    · rw [List.pairwise_append]
      refine ⟨hinv.far, by simp, ?_⟩
      intro a ha b hb
      rcases List.mem_singleton.mp hb with rfl
      show (((max (mkMatch imgW imgH st.nextId d).pw (mkMatch imgW imgH st.nextId d).ph : ℕ) : ℚ) * (4/5))^2 ≤ _
      have hc : (a.px, a.py) ∈ st.centers := by
        rw [hinv.centers_eq]
        exact List.mem_map_of_mem _ ha
      have := hfar (a.px, a.py) hc
      rw [distSq_comm] at this
      exact this
    · intro m hm
      rcases List.mem_append.mp hm with hml | hmr
      · exact hinv.src_mem m hml
      · rcases List.mem_singleton.mp hmr with rfl
        exact ⟨d, hd, embodies_mkMatch imgW imgH st.nextId d⟩

theorem clusterFoldl_inv {src : List Detection} {imgW imgH : ℕ} (l : List Detection)
    (st : ClusterState) (hst : ClusterInv src st) (hl : ∀ d ∈ l, d ∈ src) :
    ClusterInv src (l.foldl (clusterStep imgW imgH) st) := by
  induction l generalizing st with
  | nil => exact hst
  | cons d l ih =>
    exact ih _ (clusterStep_inv hst (hl d (List.mem_cons_self d l)))
      (fun e he => hl e (List.mem_cons_of_mem d he))

theorem clusterStep_ms_mono {imgW imgH : ℕ} (st : ClusterState) (d : Detection)
    {m : MatchRec} (hm : m ∈ st.ms) : m ∈ (clusterStep imgW imgH st d).ms := by
  unfold clusterStep
  split
  · exact hm
  · exact List.mem_append_left _ hm

theorem clusterFoldl_ms_mono {imgW imgH : ℕ} (l : List Detection) (st : ClusterState)
    {m : MatchRec} (hm : m ∈ st.ms) : m ∈ (l.foldl (clusterStep imgW imgH) st).ms := by
  induction l generalizing st with
  | nil => exact hm
  | cons d l ih => exact ih _ (clusterStep_ms_mono st d hm)

theorem clusterFoldl_conf {imgW imgH : ℕ} (l : List Detection) (st : ClusterState)
    (hl : l.Pairwise (fun a b => b.confidence ≤ a.confidence))
    (hst : st.ms.Pairwise (fun a b => b.confidence ≤ a.confidence))
    (hcross : ∀ m ∈ st.ms, ∀ d ∈ l, pyRound4 d.confidence ≤ m.confidence) :
    ((l.foldl (clusterStep imgW imgH) st).ms).Pairwise
      (fun a b => b.confidence ≤ a.confidence) := by
  induction l generalizing st with
  | nil => exact hst
  | cons d l ih =>
    rw [List.pairwise_cons] at hl
    show ((l.foldl (clusterStep imgW imgH) (clusterStep imgW imgH st d)).ms).Pairwise _
    have hstep : (clusterStep imgW imgH st d).ms = st.ms ∨
        (clusterStep imgW imgH st d).ms = st.ms ++ [mkMatch imgW imgH st.nextId d] := by
      unfold clusterStep
      split
      · exact Or.inl rfl
      · exact Or.inr rfl
    rcases hstep with heq | heq
    · refine ih _ hl.2 (heq ▸ hst) ?_
      rw [heq]
      exact fun m hm e he => hcross m hm e (List.mem_cons_of_mem d he)
    · refine ih _ hl.2 ?_ ?_
      · rw [heq, List.pairwise_append]
        refine ⟨hst, by simp, ?_⟩
        intro a ha b hb
        rcases List.mem_singleton.mp hb with rfl
        exact hcross a ha d (List.mem_cons_self d l)
      · rw [heq]
        intro m hm e he
        rcases List.mem_append.mp hm with hml | hmr
        · exact hcross m hml e (List.mem_cons_of_mem d he)
        · rcases List.mem_singleton.mp hmr with rfl
          show pyRound4 e.confidence ≤ pyRound4 d.confidence
          exact pyRound4_mono (hl.1 e he)

theorem clusterFoldl_complete {imgW imgH : ℕ} (l : List Detection) (st : ClusterState)
    (hst : st.centers = st.ms.map (fun m => (m.px, m.py))) :
    ∀ d ∈ l,
      (∃ m ∈ (l.foldl (clusterStep imgW imgH) st).ms, m.px = d.x ∧ m.py = d.y) ∨
      (∃ m ∈ (l.foldl (clusterStep imgW imgH) st).ms,
        distSq d.x d.y m.px m.py < (((max d.width d.height : ℕ) : ℚ) * (4/5))^2) := by
  induction l generalizing st with
  | nil => intro d hd; exact absurd hd (by simp)
  | cons d0 l ih =>
    have hstep_centers : (clusterStep imgW imgH st d0).centers =
        (clusterStep imgW imgH st d0).ms.map (fun m => (m.px, m.py)) := by
      unfold clusterStep
      split
      · exact hst
      · rw [List.map_append, hst]
        rfl
    intro d hd
    rcases List.mem_cons.mp hd with rfl | hdl
    · by_cases htc : tooClose d.x d.y (((max d.width d.height : ℕ) : ℚ) * (4/5)) st.centers = true
      · right
        rcases tooClose_eq_true_iff.mp htc with ⟨c, hc, hclose⟩
        rw [hst] at hc
        rcases List.mem_map.mp hc with ⟨m, hm, hceq⟩
        refine ⟨m, ?_, ?_⟩
        · exact clusterFoldl_ms_mono l _ (clusterStep_ms_mono st d hm)
        · rw [← hceq] at hclose
          exact hclose
      · left
        have hmem : mkMatch imgW imgH st.nextId d ∈ (clusterStep imgW imgH st d).ms := by
          unfold clusterStep
          rw [if_neg htc]
          exact List.mem_append_right _ (List.mem_singleton.mpr rfl)
        refine ⟨mkMatch imgW imgH st.nextId d, ?_, rfl, rfl⟩
        rw [List.foldl_cons]
        exact clusterFoldl_ms_mono l _ hmem
    · exact ih _ hstep_centers d hdl

/-- Facts about the output of the clustering pass, bundled from the loop
invariant: ids are consecutive, confidences are non-increasing, matches are
pairwise separated, and every match reflects a pooled detection. -/
theorem clusterPass_facts (imgW imgH : ℕ) (ds : List Detection) :
    (∀ i (h : i < (clusterPass imgW imgH ds).length), ((clusterPass imgW imgH ds)[i]).id = i) ∧
    (clusterPass imgW imgH ds).Pairwise (fun a b => b.confidence ≤ a.confidence) ∧
    (clusterPass imgW imgH ds).Pairwise (fun a b =>
      (((max b.pw b.ph : ℕ) : ℚ) * (4/5))^2 ≤ distSq a.px a.py b.px b.py) ∧
    (∀ m ∈ clusterPass imgW imgH ds, ∃ d ∈ ds, Embodies d m) := by
  have hinv : ClusterInv ds (((sortDescBy Detection.confidence ds).foldl
      (clusterStep imgW imgH) ⟨[], [], 0⟩)) :=
    clusterFoldl_inv _ _ (clusterInv_init ds) (fun d hd => mem_sortDescBy.mp hd)
  refine ⟨hinv.ids, ?_, hinv.far, hinv.src_mem⟩
  exact clusterFoldl_conf _ _ (sortDescBy_pairwise Detection.confidence ds)
    List.Pairwise.nil (by intro m hm; exact absurd hm (by simp))

theorem clusterPass_complete (imgW imgH : ℕ) (ds : List Detection) :
    ∀ d ∈ ds,
      (∃ m ∈ clusterPass imgW imgH ds, m.px = d.x ∧ m.py = d.y) ∨
      (∃ m ∈ clusterPass imgW imgH ds,
        distSq d.x d.y m.px m.py < (((max d.width d.height : ℕ) : ℚ) * (4/5))^2) :=
  fun d hd =>
    clusterFoldl_complete (sortDescBy Detection.confidence ds) ⟨[], [], 0⟩ rfl d
      (mem_sortDescBy.mpr hd)

/-! ### Lemmas about the suppression pass -/

theorem nmsFoldl_sublist (l : List MatchRec) (acc : List MatchRec) :
    ∃ l', l'.Sublist l ∧ l.foldl nmsStep acc = acc ++ l' := by
  induction l generalizing acc with
  | nil => exact ⟨[], List.Sublist.refl [], (List.append_nil acc).symm⟩
  | cons m l ih =>
    rw [List.foldl_cons]
    by_cases hc : (acc.any fun u => overlapTooBig m u) = true
    · have hstep : nmsStep acc m = acc := by
        unfold nmsStep
        rw [if_pos hc]
      rw [hstep]
      rcases ih acc with ⟨l', hsub, heq⟩
      exact ⟨l', hsub.cons m, heq⟩
    · have hstep : nmsStep acc m = acc ++ [m] := by
        unfold nmsStep
        rw [if_neg hc]
      rw [hstep]
      rcases ih (acc ++ [m]) with ⟨l', hsub, heq⟩
      refine ⟨m :: l', hsub.cons₂ m, ?_⟩
      rw [heq, List.append_assoc]
      rfl

theorem nmsPass_sublist (ms : List MatchRec) :
    ∃ l', l'.Sublist (sortDescBy MatchRec.confidence ms) ∧ nmsPass ms = l' := by
  rcases nmsFoldl_sublist (sortDescBy MatchRec.confidence ms) [] with ⟨l', hsub, heq⟩
  exact ⟨l', hsub, heq⟩

theorem nmsPass_subset {ms : List MatchRec} {m : MatchRec} (hm : m ∈ nmsPass ms) :
    m ∈ ms := by
  rcases nmsPass_sublist ms with ⟨l', hsub, heq⟩
  rw [heq] at hm
  exact (sortDescBy_perm MatchRec.confidence ms).mem_iff.mp (hsub.mem hm)

theorem nmsPass_length_le (ms : List MatchRec) : (nmsPass ms).length ≤ ms.length := by
  rcases nmsPass_sublist ms with ⟨l', hsub, heq⟩
  rw [heq]
  exact le_trans hsub.length_le (le_of_eq (sortDescBy_perm MatchRec.confidence ms).length_eq)

theorem nmsFoldl_eq_append (l acc : List MatchRec)
    (h : l.Pairwise (fun u m => overlapTooBig m u = false))
    (hacc : ∀ m ∈ l, ∀ u ∈ acc, overlapTooBig m u = false) :
    l.foldl nmsStep acc = acc ++ l := by
  induction l generalizing acc with
  | nil => exact (List.append_nil acc).symm
  | cons m l ih =>
    rw [List.pairwise_cons] at h
    rw [List.foldl_cons]
    have hstep : nmsStep acc m = acc ++ [m] := by
      unfold nmsStep
      rw [if_neg ?_]
      rw [Bool.not_eq_true, List.any_eq_false]
      intro u hu
      rw [hacc m (List.mem_cons_self m l) u hu]
      simp
    rw [hstep, ih (acc ++ [m]) h.2 ?_, List.append_assoc]
    · rfl
    · intro m' hm' u hu
      rcases List.mem_append.mp hu with hua | hum
      · exact hacc m' (List.mem_cons_of_mem m hm') u hua
      · rcases List.mem_singleton.mp hum with rfl
        exact h.1 m' hm'

/-! ### The geometric separation bound

After distance clustering, any two surviving boxes (each of dimensions
(w, h) or (h, w)) have corner distance at least `0.8 * max(w, h)`, which
forces their intersection to be at most half of the common box area
`w * h`.  This is why the suppression pass never removes a clustered match. -/

theorem rect_core (Mq P wx Wx hy Hy oX oY dx dy : ℚ)
    (hMq : 1 ≤ Mq) (hWxM : Wx ≤ Mq) (hHyM : Hy ≤ Mq)
    (hwx0 : 0 ≤ wx) (_hhy0 : 0 ≤ hy)
    (hoX0 : 0 ≤ oX) (hoY0 : 0 ≤ oY) (hdx0 : 0 ≤ dx) (hdy0 : 0 ≤ dy)
    (hoXwx : oX ≤ wx) (hoXWx : oX + dx ≤ Wx) (hoYhy : oY ≤ hy) (hoYHy : oY + dy ≤ Hy)
    (hP1 : wx * Hy = P) (hP2 : Wx * hy = P)
    (hdist : (Mq * (4/5))^2 ≤ dx^2 + dy^2) :
    oX * oY ≤ P / 2 := by
  rcases le_or_lt (Wx / 2) dx with hx | hx
  · have h1 : oX ≤ Wx / 2 := by linarith
    have h2 : oX * oY ≤ (Wx / 2) * hy := mul_le_mul h1 hoYhy hoY0 (by linarith)
    have h3 : (Wx / 2) * hy = P / 2 := by rw [← hP2]; ring
    linarith
  · rcases le_or_lt (Hy / 2) dy with hyd | hyd
    · have h1 : oY ≤ Hy / 2 := by linarith
      have h2 : oX * oY ≤ wx * (Hy / 2) := mul_le_mul hoXwx h1 hoY0 hwx0
      have h3 : wx * (Hy / 2) = P / 2 := by rw [← hP1]; ring
      linarith
    · exfalso
      have hdxM : dx < Mq / 2 := by linarith
      have hdyM : dy < Mq / 2 := by linarith
      have h1 : dx^2 < (Mq / 2)^2 := by nlinarith
      have h2 : dy^2 < (Mq / 2)^2 := by nlinarith
      nlinarith

theorem natDist_cast_sq (x1 x2 : ℕ) :
    ((x1 : ℚ) - (x2 : ℚ))^2 = ((max x1 x2 - min x1 x2 : ℕ) : ℚ)^2 := by
  rcases le_total x1 x2 with h | h
  · rw [max_eq_right h, min_eq_left h, Nat.cast_sub h]
    ring
  · rw [max_eq_left h, min_eq_right h, Nat.cast_sub h]

theorem minMax_mul (a b : ℕ) : min a b * max a b = a * b := by
  rcases le_total a b with h | h
  · rw [min_eq_left h, max_eq_right h]
  · rw [min_eq_right h, max_eq_left h, Nat.mul_comm]

theorem overlapArea_le_half (tw th : ℕ) (htw : 1 ≤ tw) (hth : 1 ≤ th)
    (x1 y1 w1 h1 x2 y2 w2 h2 : ℕ)
    (hd1 : (w1, h1) = (tw, th) ∨ (w1, h1) = (th, tw))
    (hd2 : (w2, h2) = (tw, th) ∨ (w2, h2) = (th, tw))
    (hdist : (((max tw th : ℕ) : ℚ) * (4/5))^2 ≤ distSq x1 y1 x2 y2) :
    ((overlapArea x1 y1 w1 h1 x2 y2 w2 h2 : ℕ) : ℚ) ≤ ((tw : ℚ) * (th : ℚ)) / 2 := by
  have e1 : (w1 = tw ∧ h1 = th) ∨ (w1 = th ∧ h1 = tw) := by
    rcases hd1 with h | h <;> rw [Prod.mk.injEq] at h <;> [exact Or.inl h; exact Or.inr h]
  have e2 : (w2 = tw ∧ h2 = th) ∨ (w2 = th ∧ h2 = tw) := by
    rcases hd2 with h | h <;> rw [Prod.mk.injEq] at h <;> [exact Or.inl h; exact Or.inr h]
  set dxN : ℕ := max x1 x2 - min x1 x2 with hdxN
  set dyN : ℕ := max y1 y2 - min y1 y2 with hdyN
  set oX : ℕ := min (x1 + w1) (x2 + w2) - max x1 x2 with hoX
  set oY : ℕ := min (y1 + h1) (y2 + h2) - max y1 y2 with hoY
  have harea : overlapArea x1 y1 w1 h1 x2 y2 w2 h2 = oX * oY := rfl
  rw [harea]
  have hdq : distSq x1 y1 x2 y2 = (dxN : ℚ)^2 + (dyN : ℚ)^2 := by
    unfold distSq
    rw [natDist_cast_sq x1 x2, natDist_cast_sq y1 y2]
  rw [hdq] at hdist
  have hcase : oX = 0 ∨ oY = 0 ∨
      (oX + dxN ≤ max w1 w2 ∧ oY + dyN ≤ max h1 h2) := by omega
  rcases hcase with h0 | h0 | ⟨hbx, hby⟩
  · rw [h0]
    simp only [Nat.zero_mul, Nat.cast_zero]
    positivity
  · rw [h0]
    simp only [Nat.mul_zero, Nat.cast_zero]
    positivity
  · -- overlap is positive in both directions; apply the core bound with
    -- the min/max box dimensions, which work out uniformly in all four
    -- orientation combinations.
    have hoXw : oX ≤ min w1 w2 := by omega
    have hoYh : oY ≤ min h1 h2 := by omega
    have hWxM : max w1 w2 ≤ max tw th := by
      rcases e1 with ⟨e1a, e1b⟩ | ⟨e1a, e1b⟩ <;> rcases e2 with ⟨e2a, e2b⟩ | ⟨e2a, e2b⟩ <;>
        omega
    have hHyM : max h1 h2 ≤ max tw th := by
      rcases e1 with ⟨e1a, e1b⟩ | ⟨e1a, e1b⟩ <;> rcases e2 with ⟨e2a, e2b⟩ | ⟨e2a, e2b⟩ <;>
        omega
    have hp1 : min w1 w2 * max h1 h2 = tw * th := by
      rcases e1 with ⟨e1a, e1b⟩ | ⟨e1a, e1b⟩ <;> rcases e2 with ⟨e2a, e2b⟩ | ⟨e2a, e2b⟩ <;>
        rw [e1a, e1b, e2a, e2b] <;>
        simp [minMax_mul, min_self, max_self, min_comm, max_comm, Nat.mul_comm]
    have hp2 : max w1 w2 * min h1 h2 = tw * th := by
      rcases e1 with ⟨e1a, e1b⟩ | ⟨e1a, e1b⟩ <;> rcases e2 with ⟨e2a, e2b⟩ | ⟨e2a, e2b⟩ <;>
        rw [e1a, e1b, e2a, e2b] <;>
        simp [Nat.mul_comm, minMax_mul, min_self, max_self, min_comm, max_comm]
    have hM1 : (1 : ℚ) ≤ ((max tw th : ℕ) : ℚ) := by
      have : 1 ≤ max tw th := le_trans htw (le_max_left tw th)
      exact_mod_cast this
    have hp1q : ((min w1 w2 : ℕ) : ℚ) * ((max h1 h2 : ℕ) : ℚ) = (tw : ℚ) * (th : ℚ) := by
      rw [← Nat.cast_mul, hp1, Nat.cast_mul]
    have hp2q : ((max w1 w2 : ℕ) : ℚ) * ((min h1 h2 : ℕ) : ℚ) = (tw : ℚ) * (th : ℚ) := by
      rw [← Nat.cast_mul, hp2, Nat.cast_mul]
    have hmain := rect_core ((max tw th : ℕ) : ℚ) ((tw : ℚ) * (th : ℚ))
      ((min w1 w2 : ℕ) : ℚ) ((max w1 w2 : ℕ) : ℚ)
      ((min h1 h2 : ℕ) : ℚ) ((max h1 h2 : ℕ) : ℚ)
      (oX : ℚ) (oY : ℚ) (dxN : ℚ) (dyN : ℚ)
      hM1 (by exact_mod_cast hWxM) (by exact_mod_cast hHyM)
      (by positivity) (by positivity) (by positivity)
      (by positivity) (by positivity) (by positivity)
      (by exact_mod_cast hoXw) (by exact_mod_cast hbx)
      (by exact_mod_cast hoYh) (by exact_mod_cast hby)
      hp1q hp2q hdist
    push_cast
    exact hmain

/-! ### Decidable equality for `Except`, used to evaluate concrete runs -/

def exceptToSum {ε α : Type} : Except ε α → Sum ε α
  | Except.error x => Sum.inl x
  | Except.ok x => Sum.inr x

instance {ε α : Type} [DecidableEq ε] [DecidableEq α] : DecidableEq (Except ε α) := fun x y =>
  decidable_of_iff (exceptToSum x = exceptToSum y) (by
    cases x <;> cases y <;> simp [exceptToSum])

/-- Oracle returning score 0 everywhere. -/
def zeroRaw : ℕ → ℕ → ℕ → ℚ := fun _ _ _ => 0

/-! ### Claim theorems -/

/-- Iterated 90-degree dimension transform of the rotation loop. -/
def rotateDims90 (p : ℕ × ℕ) : ℕ × ℕ := rotatedDims 90 p.1 p.2

/-- C8: rotating a template by 0 degrees reproduces the template unchanged
(same pixels and dimensions), and applying the 90-degree rotation's dimension
transform four times returns the original dimensions. -/
theorem c8_rotation_round_trip :
    (∀ t : Image, rotateTemplate t 0 = t) ∧
    (∀ p : ℕ × ℕ, rotateDims90 (rotateDims90 (rotateDims90 (rotateDims90 p))) = p) := by
  constructor
  · intro t
    simp [rotateTemplate]
  · intro p
    simp [rotateDims90, rotatedDims, absSinCos]

/-- The method strings recognized by `method_map`. -/
def recognizedMethods : List String := methodMap.map Prod.fst

/-- C9: an unrecognized method string does not make the engine fail; it
silently falls back to the default `TM_CCOEFF_NORMED` method and the search
proceeds exactly as if that method had been requested. -/
theorem c9_unknown_method_falls_back (s : String) (hs : s ∉ recognizedMethods)
    (imgW imgH tw th : ℕ) (thr : ℚ) (raw : ℕ → ℕ → ℕ → ℚ) :
    parseMethod s = Method.ccoeff ∧
    visual_search imgW imgH tw th thr s raw =
      visual_search imgW imgH tw th thr "cv2.TM_CCOEFF_NORMED" raw := by
  have hfind : methodMap.find? (fun p => p.1 == s) = none := by
    rw [List.find?_eq_none]
    intro p hp
    simp only [beq_iff_eq]
    intro heq
    exact hs (heq ▸ List.mem_map_of_mem Prod.fst hp)
  have hparse : parseMethod s = Method.ccoeff := by
    unfold parseMethod
    rw [hfind]
  refine ⟨hparse, ?_⟩
  unfold visual_search
  rw [hparse]
  rfl

/-- C10: on success, the `totalMatches` field equals the length of the
returned match list. -/
theorem c10_totalMatches_eq_length (imgW imgH tw th : ℕ) (thr : ℚ) (method : String)
    (raw : ℕ → ℕ → ℕ → ℚ) (r : SearchResult)
    (hok : visual_search imgW imgH tw th thr method raw = Except.ok r) :
    r.totalMatches = r.matches'.length := by
  rcases visual_search_ok_elim hok with ⟨pool, _, hm, ht, _, _⟩
  rw [ht, hm]

/-- C10 witness. -/
theorem c10_witness :
    ({ matches' := [], totalMatches := 0, imageWidth := 3, imageHeight := 3,
       templateWidth := 2, templateHeight := 2 } : SearchResult).totalMatches =
    ({ matches' := [], totalMatches := 0, imageWidth := 3, imageHeight := 3,
       templateWidth := 2, templateHeight := 2 } : SearchResult).matches'.length :=
  c10_totalMatches_eq_length 3 3 2 2 (1/2) "cv2.TM_CCOEFF_NORMED" zeroRaw _ (by
    have hinv : (decide (parseMethod "cv2.TM_CCOEFF_NORMED" = Method.sqdiff)) = false := by
      decide
    unfold visual_search
    rw [hinv, if_neg (by norm_num), if_neg (by norm_num)]
    norm_num [scanAll, scanRotation, rotatedDims, absSinCos, windowList, List.range_succ,
      scoreAt, zeroRaw, bind, Except.bind, pure, Except.pure, List.filterMap_cons,
      capDetections, clusterPass, sortDescBy, nmsPass])

/-- C9 witness. -/
theorem c9_witness :
    parseMethod "TM_UNKNOWN" = Method.ccoeff ∧
    visual_search 3 3 2 2 (1/2) "TM_UNKNOWN" (fun _ _ _ => 0) =
      visual_search 3 3 2 2 (1/2) "cv2.TM_CCOEFF_NORMED" (fun _ _ _ => 0) :=
  c9_unknown_method_falls_back "TM_UNKNOWN" (by decide) 3 3 2 2 (1/2) (fun _ _ _ => 0)

/-- C2 counterexample: image 10x5, template 8x1.  The unrotated template fits
(8 ≤ 10, 1 ≤ 5), so the line-85 size check passes, but the 90-degree oriented
template is 1x8 and 8 > 5, so the engine fails with the generic scan failure
("Visual search failed: ..."), not with `TemplateTooLarge`; the claimed
per-orientation `TemplateTooLarge` check does not exist in the code. -/
theorem c2_counterexample :
    visual_search 10 5 8 1 (1/2) "cv2.TM_CCOEFF_NORMED" zeroRaw =
      Except.error SearchError.scanFailure ∧
    SearchError.scanFailure ≠ SearchError.templateTooLarge := by
  constructor
  · unfold visual_search
    rw [if_neg (by norm_num), if_neg (by norm_num)]
    have h : scanAll 10 5 8 1 zeroRaw
        (decide (parseMethod "cv2.TM_CCOEFF_NORMED" = Method.sqdiff)) (1/2) =
        Except.error SearchError.scanFailure := by decide
    rw [h]
  · decide

/-- C2 amended: the size check is applied only to the unrotated template; if
the unrotated template exceeds the target in either dimension the engine
fails with `TemplateTooLarge` before scanning, while if the unrotated
template fits but the swapped (90/270-degree) dimensions exceed the target,
the matching step raises and the engine reports the generic scan failure
instead of `TemplateTooLarge`. -/
theorem c2_size_check_unrotated_only (imgW imgH tw th : ℕ) (thr : ℚ) (method : String)
    (raw : ℕ → ℕ → ℕ → ℚ) (hthr : ¬(thr < 0 ∨ 1 < thr)) :
    ((imgW < tw ∨ imgH < th) →
      visual_search imgW imgH tw th thr method raw =
        Except.error SearchError.templateTooLarge) ∧
    (tw ≤ imgW → th ≤ imgH → (imgW < th ∨ imgH < tw) →
      visual_search imgW imgH tw th thr method raw =
        Except.error SearchError.scanFailure) := by
  constructor
  · intro hbig
    unfold visual_search
    rw [if_neg hthr, if_pos hbig]
  · intro hwfit hhfit hrot
    unfold visual_search
    rw [if_neg hthr, if_neg (by push_neg; exact ⟨hwfit, hhfit⟩)]
    have h0 : rotatedDims 0 tw th = (tw, th) := by simp [rotatedDims]
    have h90 : rotatedDims 90 tw th = (th, tw) := by simp [rotatedDims, absSinCos]
    have hscan : scanAll imgW imgH tw th raw
        (decide (parseMethod method = Method.sqdiff)) thr =
        Except.error SearchError.scanFailure := by
      unfold scanAll
      rcases @scanRotation_ok_of_fits imgW imgH tw th raw
          (decide (parseMethod method = Method.sqdiff)) thr 0
          (h0 ▸ hwfit : (rotatedDims 0 tw th).1 ≤ imgW)
          (h0 ▸ hhfit : (rotatedDims 0 tw th).2 ≤ imgH) with ⟨l0, hl0⟩
      rw [hl0]
      have hfail : scanRotation imgW imgH tw th raw
          (decide (parseMethod method = Method.sqdiff)) thr 90 =
          Except.error SearchError.scanFailure := by
        unfold scanRotation
        rw [if_pos]
        rw [h90]
        exact hrot
      rw [hfail]
      rfl
    rw [hscan]

/-- C2 amended-claim witness. -/
theorem c2_witness :
    (visual_search 10 5 20 1 (1/2) "cv2.TM_CCOEFF_NORMED" zeroRaw =
      Except.error SearchError.templateTooLarge) ∧
    (visual_search 10 5 8 1 (1/2) "cv2.TM_CCOEFF_NORMED" zeroRaw =
      Except.error SearchError.scanFailure) :=
  ⟨(c2_size_check_unrotated_only 10 5 20 1 (1/2) "cv2.TM_CCOEFF_NORMED" zeroRaw
      (by norm_num)).1 (by norm_num),
   (c2_size_check_unrotated_only 10 5 8 1 (1/2) "cv2.TM_CCOEFF_NORMED" zeroRaw
      (by norm_num)).2 (by norm_num) (by norm_num) (by norm_num)⟩

/-- Oracle for the C3 counterexample: score 0.70004 at the origin window of
the unrotated template, 0 elsewhere. -/
def c3raw : ℕ → ℕ → ℕ → ℚ := fun rot x y =>
  if rot = 0 ∧ x = 0 ∧ y = 0 then 70004/100000 else 0

/-- The result of the C3 counterexample run. -/
def c3res : SearchResult :=
  { matches' := [{ id := 0, confidence := 7/10, bboxX := 0, bboxY := 0,
                   bboxW := 1/2, bboxH := 1/2, px := 0, py := 0, pw := 2, ph := 2,
                   rotation := 0 }],
    totalMatches := 1, imageWidth := 4, imageHeight := 4,
    templateWidth := 2, templateHeight := 2 }

/-- C3 counterexample: with threshold 0.70004, the single surviving window has
raw score exactly 0.70004 (so it passes the `score ≥ threshold` filter), but
the reported confidence field is `round(0.70004, 4) = 0.7`, which is strictly
below the threshold.  The claim "every Match's reported confidence ≥ t" is
false because the source rounds the confidence to 4 decimal places (line 210)
after filtering. -/
theorem c3_counterexample :
    visual_search 4 4 2 2 (70004/100000) "cv2.TM_CCOEFF_NORMED" c3raw = Except.ok c3res ∧
    ¬(∀ m ∈ c3res.matches', (70004/100000 : ℚ) ≤ m.confidence) := by
  constructor
  · have hinv : (decide (parseMethod "cv2.TM_CCOEFF_NORMED" = Method.sqdiff)) = false := by
      decide
    unfold visual_search
    rw [hinv, if_neg (by norm_num), if_neg (by norm_num)]
    norm_num [scanAll, scanRotation, rotatedDims, absSinCos, windowList, List.range_succ,
      scoreAt, c3raw, bind, Except.bind, pure, Except.pure, List.filterMap_cons,
      capDetections, clusterPass, sortDescBy, insertDescBy, clusterStep, tooClose, distSq,
      mkMatch, pyRound4, roundHalfEven, nmsPass, nmsStep, overlapTooBig, overlapArea, c3res]
  · intro hall
    have hmem : ({ id := 0, confidence := 7/10, bboxX := 0, bboxY := 0,
                   bboxW := 1/2, bboxH := 1/2, px := 0, py := 0, pw := 2, ph := 2,
                   rotation := 0 } : MatchRec) ∈ c3res.matches' := by
      simp [c3res]
    have := hall _ hmem
    norm_num at this

/-- C3 amended: every surviving Match's confidence field is the underlying
window score rounded to 4 decimal places; the underlying score is ≥ t, so
the reported field can fall below t by at most half of the last rounding
digit: confidence ≥ t − 1/20000. -/
theorem c3_confidence_vs_threshold (imgW imgH tw th : ℕ) (thr : ℚ) (method : String)
    (raw : ℕ → ℕ → ℕ → ℚ) (r : SearchResult)
    (hok : visual_search imgW imgH tw th thr method raw = Except.ok r) :
    ∀ m ∈ r.matches', thr - 1/20000 ≤ m.confidence ∧
      ∃ c : ℚ, thr ≤ c ∧ m.confidence = pyRound4 c := by
  rcases visual_search_ok_elim hok with ⟨pool, hscan, hm, _, _, _⟩
  intro m hmem
  rw [hm] at hmem
  have hclustered := nmsPass_subset hmem
  rcases (clusterPass_facts imgW imgH (capDetections pool)).2.2.2 m hclustered
    with ⟨d, hd, hemb⟩
  have hpool : d ∈ pool := capDetections_subset hd
  have hthr : thr ≤ d.confidence := (scanAll_mem hscan hpool).2.1
  have hconf : m.confidence = pyRound4 d.confidence := hemb.2.2.2.2.1
  refine ⟨?_, d.confidence, hthr, hconf⟩
  rw [hconf]
  have := pyRound4_ge d.confidence
  linarith

/-- The single match record of the C3 counterexample run. -/
def c3m : MatchRec :=
  { id := 0, confidence := 7/10, bboxX := 0, bboxY := 0, bboxW := 1/2, bboxH := 1/2,
    px := 0, py := 0, pw := 2, ph := 2, rotation := 0 }

/-- C3 amended-claim witness. -/
theorem c3_witness :
    (70004/100000 : ℚ) - 1/20000 ≤ c3m.confidence ∧
      ∃ c : ℚ, (70004/100000 : ℚ) ≤ c ∧ c3m.confidence = pyRound4 c :=
  c3_confidence_vs_threshold 4 4 2 2 (70004/100000) "cv2.TM_CCOEFF_NORMED" c3raw c3res (by
    have hinv : (decide (parseMethod "cv2.TM_CCOEFF_NORMED" = Method.sqdiff)) = false := by
      decide
    unfold visual_search
    rw [hinv, if_neg (by norm_num), if_neg (by norm_num)]
    norm_num [scanAll, scanRotation, rotatedDims, absSinCos, windowList, List.range_succ,
      scoreAt, c3raw, bind, Except.bind, pure, Except.pure, List.filterMap_cons,
      capDetections, clusterPass, sortDescBy, insertDescBy, clusterStep, tooClose, distSq,
      mkMatch, pyRound4, roundHalfEven, nmsPass, nmsStep, overlapTooBig, overlapArea, c3res])
    c3m (List.mem_singleton.mpr rfl)

/-- C5: at most 1000 raw detections (pooled across all four orientations) are
passed on to the reduction passes; when more detections pass the threshold,
the ones retained are those with the highest final scores, and for a
squared-difference method the score being compared is the already inverted
`1 − rawScore` (the cap sorts detection confidences, which were inverted at
scan time, lines 139-141 before lines 160-163). -/
theorem c5_detection_cap (imgW imgH tw th : ℕ) (raw : ℕ → ℕ → ℕ → ℚ) (method : String)
    (thr : ℚ) (pool : List Detection)
    (hok : scanAll imgW imgH tw th raw (decide (parseMethod method = Method.sqdiff)) thr
      = Except.ok pool) :
    (capDetections pool).length ≤ 1000 ∧
    (∀ k ∈ capDetections pool, k ∈ pool) ∧
    (∀ k ∈ capDetections pool, ∀ d ∈ pool, d ∉ capDetections pool →
      d.confidence ≤ k.confidence) ∧
    (parseMethod method = Method.sqdiff →
      ∀ d ∈ pool, d.confidence = 1 - raw d.rotation d.x d.y) := by
  refine ⟨(capDetections_length pool).1, fun k hk => capDetections_subset hk,
    fun k hk d hd hdn => capDetections_top hk hd hdn, ?_⟩
  intro hsq d hd
  have := (scanAll_mem hok hd).2.2
  rw [this]
  unfold scoreAt
  rw [if_pos (by rw [hsq]; rfl)]

/-- Oracle for the C5 witness: raw squared-difference score 0 at the origin
window of the unrotated template (a perfect match), 1 elsewhere. -/
def c5raw : ℕ → ℕ → ℕ → ℚ := fun rot x y =>
  if rot = 0 ∧ x = 0 ∧ y = 0 then 0 else 1

/-- C5 witness, on a squared-difference request. -/
theorem c5_witness :
    (capDetections [⟨0, 0, 2, 2, 1, 0⟩]).length ≤ 1000 ∧
    (∀ k ∈ capDetections [⟨0, 0, 2, 2, 1, 0⟩], k ∈ [(⟨0, 0, 2, 2, 1, 0⟩ : Detection)]) ∧
    (∀ k ∈ capDetections [⟨0, 0, 2, 2, 1, 0⟩], ∀ d ∈ [(⟨0, 0, 2, 2, 1, 0⟩ : Detection)],
      d ∉ capDetections [⟨0, 0, 2, 2, 1, 0⟩] → d.confidence ≤ k.confidence) ∧
    (parseMethod "TM_SQDIFF_NORMED" = Method.sqdiff →
      ∀ d ∈ [(⟨0, 0, 2, 2, 1, 0⟩ : Detection)],
        d.confidence = 1 - c5raw d.rotation d.x d.y) :=
  c5_detection_cap 3 3 2 2 c5raw "TM_SQDIFF_NORMED" 1 [⟨0, 0, 2, 2, 1, 0⟩] (by
    have hinv : (decide (parseMethod "TM_SQDIFF_NORMED" = Method.sqdiff)) = true := by decide
    rw [hinv]
    norm_num [scanAll, scanRotation, rotatedDims, absSinCos, windowList, List.range_succ,
      scoreAt, c5raw, bind, Except.bind, pure, Except.pure, List.filterMap_cons])

/-- When every pooled detection sits at the origin and has a nonempty
footprint, the clustering pass accepts at most one of them (the origin
itself): any further origin detection is within `0.8 * max(w, h) > 0` of the
accepted center. -/
theorem clusterFoldl_origin {imgW imgH : ℕ} (l : List Detection)
    (hl : ∀ d ∈ l, d.x = 0 ∧ d.y = 0 ∧ 1 ≤ max d.width d.height) (st : ClusterState)
    (hst : (st.centers = [] ∧ st.ms = []) ∨
           (st.centers = [(0, 0)] ∧ ∃ m, st.ms = [m] ∧ m.px = 0 ∧ m.py = 0)) :
    ((l.foldl (clusterStep imgW imgH) st).centers = [] ∧
      (l.foldl (clusterStep imgW imgH) st).ms = []) ∨
    ((l.foldl (clusterStep imgW imgH) st).centers = [(0, 0)] ∧
      ∃ m, (l.foldl (clusterStep imgW imgH) st).ms = [m] ∧ m.px = 0 ∧ m.py = 0) := by
  induction l generalizing st with
  | nil => exact hst
  | cons d l ih =>
    obtain ⟨hdx, hdy, hdmax⟩ := hl d (List.mem_cons_self d l)
    rw [List.foldl_cons]
    refine ih (fun e he => hl e (List.mem_cons_of_mem d he)) _ ?_
    rcases hst with ⟨hc, hms⟩ | ⟨hc, m, hms, hmx, hmy⟩
    · right
      have htc : tooClose d.x d.y (((max d.width d.height : ℕ) : ℚ) * (4/5)) st.centers
          = false := by
        rw [hc]
        rfl
      unfold clusterStep
      rw [htc, if_neg (by simp)]
      refine ⟨?_, mkMatch imgW imgH st.nextId d, ?_, hdx, hdy⟩
      · show st.centers ++ [(d.x, d.y)] = [(0, 0)]
        rw [hc, hdx, hdy]
        rfl
      · show st.ms ++ [mkMatch imgW imgH st.nextId d] = _
        rw [hms]
        rfl
    · have htc : tooClose d.x d.y (((max d.width d.height : ℕ) : ℚ) * (4/5)) st.centers
          = true := by
        rw [hc, tooClose_eq_true_iff]
        refine ⟨(0, 0), List.mem_singleton.mpr rfl, ?_⟩
        rw [hdx, hdy]
        have hz : distSq 0 0 0 0 = 0 := by norm_num [distSq]
        rw [hz]
        have hpos : (0 : ℚ) < ((max d.width d.height : ℕ) : ℚ) := by
          have : (1 : ℚ) ≤ ((max d.width d.height : ℕ) : ℚ) := by exact_mod_cast hdmax
          linarith
        exact pow_pos (mul_pos hpos (by norm_num)) 2
      unfold clusterStep
      rw [htc, if_pos rfl]
      exact Or.inr ⟨hc, m, hms, hmx, hmy⟩

/-- C4: when the template's dimensions exactly equal the target image's
dimensions and the request succeeds (which forces the image to be square,
since otherwise the 90-degree scan raises), the result contains at most one
match, located at pixel origin (0, 0). -/
theorem c4_full_size_template (imgW imgH : ℕ) (thr : ℚ) (method : String)
    (raw : ℕ → ℕ → ℕ → ℚ) (r : SearchResult)
    (hW : 1 ≤ imgW) (hH : 1 ≤ imgH)
    (hok : visual_search imgW imgH imgW imgH thr method raw = Except.ok r) :
    r.matches'.length ≤ 1 ∧ ∀ m ∈ r.matches', m.px = 0 ∧ m.py = 0 := by
  rcases visual_search_ok_elim hok with ⟨pool, hscan, hm, _, _, _⟩
  rcases scanAll_ok_elim hscan with ⟨a, b, c, d4, h0, h90, h180, h270, hpool⟩
  have hfit90 := scanRotation_ok_fits h90
  have h90dims : rotatedDims 90 imgW imgH = (imgH, imgW) := by
    simp [rotatedDims, absSinCos]
  rw [h90dims] at hfit90
  have heq : imgW = imgH := le_antisymm (by simpa using hfit90.2) (by simpa using hfit90.1)
  subst heq
  have hdet : ∀ e ∈ pool, e.x = 0 ∧ e.y = 0 ∧ 1 ≤ max e.width e.height := by
    have key : ∀ rot lr e, scanRotation imgW imgW imgW imgW raw
        (decide (parseMethod method = Method.sqdiff)) thr rot = Except.ok lr → e ∈ lr →
        rotatedDims rot imgW imgW = (imgW, imgW) →
        e.x = 0 ∧ e.y = 0 ∧ 1 ≤ max e.width e.height := by
      intro rot lr e hlr hel hrd
      obtain ⟨hw, hh, _, _, _, hx, hy⟩ := scanRotation_mem hlr hel
      rw [hrd] at hw hh hx hy
      have hx' : e.x < imgW - imgW + 1 := by simpa using hx
      have hy' : e.y < imgW - imgW + 1 := by simpa using hy
      have hw' : e.width = imgW := by simpa using hw
      refine ⟨by omega, by omega, by omega⟩
    intro e he
    rw [hpool] at he
    rcases List.mem_append.mp he with he' | he270
    · rcases List.mem_append.mp he' with he'' | he180
      · rcases List.mem_append.mp he'' with he0 | he90
        · exact key 0 a e h0 he0 (by simp [rotatedDims])
        · exact key 90 b e h90 he90 (by simp [rotatedDims, absSinCos])
      · exact key 180 c e h180 he180 (by simp [rotatedDims, absSinCos])
    · exact key 270 d4 e h270 he270 (by simp [rotatedDims, absSinCos])
  have hsorted : ∀ e ∈ sortDescBy Detection.confidence (capDetections pool),
      e.x = 0 ∧ e.y = 0 ∧ 1 ≤ max e.width e.height :=
    fun e he => hdet e (capDetections_subset (mem_sortDescBy.mp he))
  have horigin := @clusterFoldl_origin imgW imgW
    (sortDescBy Detection.confidence (capDetections pool)) hsorted ⟨[], [], 0⟩
    (Or.inl ⟨rfl, rfl⟩)
  have hcp : clusterPass imgW imgW (capDetections pool) =
      ((sortDescBy Detection.confidence (capDetections pool)).foldl
        (clusterStep imgW imgW) ⟨[], [], 0⟩).ms := rfl
  rcases horigin with ⟨_, hms⟩ | ⟨_, m, hms, hmx, hmy⟩
  · have hempty : clusterPass imgW imgW (capDetections pool) = [] := by
      rw [hcp, hms]
    rw [hm, hempty]
    constructor
    · exact le_trans (nmsPass_length_le []) (by simp)
    · intro m' hm'
      exact absurd (nmsPass_subset hm') (by simp)
  · have hone : clusterPass imgW imgW (capDetections pool) = [m] := by
      rw [hcp, hms]
    rw [hm, hone]
    constructor
    · exact le_trans (nmsPass_length_le [m]) (by simp)
    · intro m' hm'
      rcases List.mem_singleton.mp (nmsPass_subset hm') with rfl
      exact ⟨hmx, hmy⟩

/-- Oracle reporting a perfect correlation everywhere. -/
def oneRaw : ℕ → ℕ → ℕ → ℚ := fun _ _ _ => 1

/-- The result of the C4 witness run: a 2x2 template over a 2x2 image. -/
def c4res : SearchResult :=
  { matches' := [{ id := 0, confidence := 1, bboxX := 0, bboxY := 0,
                   bboxW := 1, bboxH := 1, px := 0, py := 0, pw := 2, ph := 2,
                   rotation := 0 }],
    totalMatches := 1, imageWidth := 2, imageHeight := 2,
    templateWidth := 2, templateHeight := 2 }

/-- C4 witness. -/
theorem c4_witness :
    c4res.matches'.length ≤ 1 ∧ ∀ m ∈ c4res.matches', m.px = 0 ∧ m.py = 0 :=
  c4_full_size_template 2 2 (1/2) "cv2.TM_CCOEFF_NORMED" oneRaw c4res
    (by norm_num) (by norm_num) (by
      have hinv : (decide (parseMethod "cv2.TM_CCOEFF_NORMED" = Method.sqdiff)) = false := by
        decide
      unfold visual_search
      rw [hinv, if_neg (by norm_num), if_neg (by norm_num)]
      norm_num [scanAll, scanRotation, rotatedDims, absSinCos, windowList, List.range_succ,
        scoreAt, oneRaw, bind, Except.bind, pure, Except.pure, List.filterMap_cons,
        capDetections, clusterPass, sortDescBy, insertDescBy, clusterStep, tooClose, distSq,
        mkMatch, pyRound4, roundHalfEven, nmsPass, nmsStep, overlapTooBig, overlapArea, c4res])

/-- C6: detections are processed in descending confidence order (the pass
folds over a stable descending-confidence permutation of its input), a
detection is accepted only if its distance from every already-accepted
center is at least `max(width, height) * 0.8` of its own footprint (so any
two accepted matches satisfy that separation, measured with the later
match's footprint), and every detection is otherwise discarded: each input
detection either appears as an accepted center or lies strictly within
`max(width, height) * 0.8` of some accepted center. -/
theorem c6_distance_clustering (imgW imgH : ℕ) (ds : List Detection) :
    (sortDescBy Detection.confidence ds).Perm ds ∧
    (sortDescBy Detection.confidence ds).Pairwise (fun a b => b.confidence ≤ a.confidence) ∧
    (clusterPass imgW imgH ds).Pairwise (fun a b =>
      (((max b.pw b.ph : ℕ) : ℚ) * (4/5))^2 ≤ distSq a.px a.py b.px b.py) ∧
    (∀ d ∈ ds,
      (∃ m ∈ clusterPass imgW imgH ds, m.px = d.x ∧ m.py = d.y) ∨
      (∃ m ∈ clusterPass imgW imgH ds,
        distSq d.x d.y m.px m.py < (((max d.width d.height : ℕ) : ℚ) * (4/5))^2)) :=
  ⟨sortDescBy_perm _ ds, sortDescBy_pairwise _ ds,
   (clusterPass_facts imgW imgH ds).2.2.1, clusterPass_complete imgW imgH ds⟩

/-- First detection of the C6 witness pool. -/
def c6d1 : Detection := ⟨0, 0, 2, 2, 1, 0⟩

/-- Second detection of the C6 witness pool: same position, lower confidence. -/
def c6d2 : Detection := ⟨0, 0, 2, 2, 1/2, 90⟩

/-- C6 witness: the lower-confidence duplicate at the same position is
discarded, landing in the "strictly within 0.8 of an accepted center" arm. -/
theorem c6_witness :
    (∃ m ∈ clusterPass 4 4 [c6d1, c6d2], m.px = c6d2.x ∧ m.py = c6d2.y) ∨
    (∃ m ∈ clusterPass 4 4 [c6d1, c6d2],
      distSq c6d2.x c6d2.y m.px m.py <
        (((max c6d2.width c6d2.height : ℕ) : ℚ) * (4/5))^2) :=
  (c6_distance_clustering 4 4 [c6d1, c6d2]).2.2.2 c6d2 (by simp)

/-! ### Helpers shared by the overlap claims -/

theorem dims_pair_max {tw th a b : ℕ} (h : (a, b) = (tw, th) ∨ (a, b) = (th, tw)) :
    max a b = max tw th ∧ a * b = tw * th := by
  rcases h with h | h <;> rw [Prod.mk.injEq] at h <;> obtain ⟨h1, h2⟩ := h <;> rw [h1, h2]
  · exact ⟨rfl, rfl⟩
  · exact ⟨max_comm th tw, Nat.mul_comm th tw⟩

theorem clustered_dims {imgW imgH tw th : ℕ} {pool : List Detection} {invert : Bool}
    {thr : ℚ} {raw : ℕ → ℕ → ℕ → ℚ}
    (hscan : scanAll imgW imgH tw th raw invert thr = Except.ok pool) :
    ∀ m ∈ clusterPass imgW imgH (capDetections pool),
      (m.pw, m.ph) = (tw, th) ∨ (m.pw, m.ph) = (th, tw) := by
  intro m hm
  rcases (clusterPass_facts imgW imgH (capDetections pool)).2.2.2 m hm with ⟨d, hd, hemb⟩
  have hdim := (scanAll_mem hscan (capDetections_subset hd)).1
  rw [hemb.2.2.1, hemb.2.2.2.1]
  exact hdim

theorem clustered_far_uniform {imgW imgH tw th : ℕ} {pool : List Detection} {invert : Bool}
    {thr : ℚ} {raw : ℕ → ℕ → ℕ → ℚ}
    (hscan : scanAll imgW imgH tw th raw invert thr = Except.ok pool) :
    (clusterPass imgW imgH (capDetections pool)).Pairwise (fun a b =>
      (((max tw th : ℕ) : ℚ) * (4/5))^2 ≤ distSq a.px a.py b.px b.py) := by
  refine ((clusterPass_facts imgW imgH (capDetections pool)).2.2.1).imp_of_mem ?_
  intro a b ha hb hr
  have hmx := (dims_pair_max (clustered_dims hscan b hb)).1
  rw [← hmx]
  exact hr

theorem nmsPass_pairwise_of_symm {R : MatchRec → MatchRec → Prop}
    (hsymm : ∀ {x y : MatchRec}, R x y → R y x) {ms : List MatchRec}
    (h : ms.Pairwise R) : (nmsPass ms).Pairwise R := by
  rcases nmsPass_sublist ms with ⟨l', hsub, heq⟩
  rw [heq]
  exact List.Pairwise.sublist hsub
    ((List.Perm.pairwise_iff hsymm (sortDescBy_perm MatchRec.confidence ms)).mpr h)

/-- C1: in every successful result, no two returned Matches have area-overlap
ratio (intersection area over the smaller of the two box areas) exceeding
0.5.  All boxes stem from the four orientations of one template, so both
areas equal `tw * th`, and the clustering separation plus the geometric
bound keep every pairwise intersection at or below half that area. -/
theorem c1_no_excessive_overlap (imgW imgH tw th : ℕ) (thr : ℚ) (method : String)
    (raw : ℕ → ℕ → ℕ → ℚ) (r : SearchResult) (htw : 1 ≤ tw) (hth : 1 ≤ th)
    (hok : visual_search imgW imgH tw th thr method raw = Except.ok r) :
    r.matches'.Pairwise (fun m1 m2 =>
      ((overlapArea m1.px m1.py m1.pw m1.ph m2.px m2.py m2.pw m2.ph : ℕ) : ℚ) /
        min ((m1.pw * m1.ph : ℕ) : ℚ) ((m2.pw * m2.ph : ℕ) : ℚ) ≤ 1/2) := by
  rcases visual_search_ok_elim hok with ⟨pool, hscan, hm, _, _, _⟩
  rw [hm]
  have hdim := clustered_dims hscan
  have hfinal : (nmsPass (clusterPass imgW imgH (capDetections pool))).Pairwise
      (fun a b => (((max tw th : ℕ) : ℚ) * (4/5))^2 ≤ distSq a.px a.py b.px b.py) :=
    nmsPass_pairwise_of_symm (fun h => by rw [distSq_comm]; exact h)
      (clustered_far_uniform hscan)
  refine hfinal.imp_of_mem ?_
  intro a b ha hb hr
  have hda := hdim a (nmsPass_subset ha)
  have hdb := hdim b (nmsPass_subset hb)
  have hoa := overlapArea_le_half tw th htw hth a.px a.py a.pw a.ph b.px b.py b.pw b.ph
    hda hdb hr
  have hmin : min ((a.pw * a.ph : ℕ) : ℚ) ((b.pw * b.ph : ℕ) : ℚ) = ((tw * th : ℕ) : ℚ) := by
    rw [(dims_pair_max hda).2, (dims_pair_max hdb).2, min_self]
  rw [hmin]
  have hP : (0 : ℚ) < ((tw * th : ℕ) : ℚ) := by
    have h1 : 1 ≤ tw * th := by
      have := Nat.mul_le_mul htw hth
      simpa using this
    have : (1 : ℚ) ≤ ((tw * th : ℕ) : ℚ) := by exact_mod_cast h1
    linarith
  rw [div_le_iff₀ hP]
  have hcast : ((tw * th : ℕ) : ℚ) = (tw : ℚ) * (th : ℚ) := by push_cast; ring
  rw [hcast]
  linarith

/-- C7: after clustering, any two surviving boxes intersect in at most half
a box area, so the suppression pass keeps every clustered match; the final
list is therefore the clustered list itself, whose ids were assigned
consecutively from 0 in output order. -/
theorem c7_consecutive_ids (imgW imgH tw th : ℕ) (thr : ℚ) (method : String)
    (raw : ℕ → ℕ → ℕ → ℚ) (r : SearchResult) (htw : 1 ≤ tw) (hth : 1 ≤ th)
    (hok : visual_search imgW imgH tw th thr method raw = Except.ok r) :
    ∀ i (h : i < r.matches'.length), (r.matches'[i]).id = i := by
  rcases visual_search_ok_elim hok with ⟨pool, hscan, hm, _, _, _⟩
  have hfacts := clusterPass_facts imgW imgH (capDetections pool)
  have hdim := clustered_dims hscan
  have hnoov : (clusterPass imgW imgH (capDetections pool)).Pairwise
      (fun u m => overlapTooBig m u = false) := by
    refine (clustered_far_uniform hscan).imp_of_mem ?_
    intro u m hu hm' hr
    have hdu := hdim u hu
    have hdm := hdim m hm'
    have hpm : m.pw * m.ph = tw * th := (dims_pair_max hdm).2
    have hr' : (((max tw th : ℕ) : ℚ) * (4/5))^2 ≤ distSq m.px m.py u.px u.py := by
      rw [distSq_comm]
      exact hr
    have hoa := overlapArea_le_half tw th htw hth m.px m.py m.pw m.ph u.px u.py u.pw u.ph
      hdm hdu hr'
    unfold overlapTooBig
    apply decide_eq_false
    intro hlt
    have hpos : 0 < m.pw * m.ph := by
      rw [hpm]
      exact Nat.mul_pos htw hth
    rw [if_pos hpos] at hlt
    have hPq : (0 : ℚ) < ((m.pw * m.ph : ℕ) : ℚ) := by exact_mod_cast hpos
    rw [lt_div_iff₀ hPq] at hlt
    have hcast : ((m.pw * m.ph : ℕ) : ℚ) = (tw : ℚ) * (th : ℚ) := by
      rw [hpm]
      push_cast
      ring
    rw [hcast] at hlt
    linarith
  have hnms : nmsPass (clusterPass imgW imgH (capDetections pool)) =
      clusterPass imgW imgH (capDetections pool) := by
    unfold nmsPass
    rw [sortDescBy_eq_of_sorted hfacts.2.1]
    rw [nmsFoldl_eq_append _ [] hnoov (fun m' hm' u hu => absurd hu (by simp))]
    exact List.nil_append _
  rw [hm, hnms]
  exact hfacts.1

/-- Oracle for the two-hit witness runs: perfect unrotated matches at
pixel positions (0, 0) and (2, 0), nothing anywhere else. -/
def twoHitRaw : ℕ → ℕ → ℕ → ℚ := fun rot x y =>
  if rot = 0 ∧ y = 0 ∧ (x = 0 ∨ x = 2) then 1 else 0

/-- Result of the two-hit witness run. -/
def twoHitRes : SearchResult :=
  { matches' := [{ id := 0, confidence := 1, bboxX := 0, bboxY := 0,
                   bboxW := 1/2, bboxH := 1/2, px := 0, py := 0, pw := 2, ph := 2,
                   rotation := 0 },
                 { id := 1, confidence := 1, bboxX := 1/2, bboxY := 0,
                   bboxW := 1/2, bboxH := 1/2, px := 2, py := 0, pw := 2, ph := 2,
                   rotation := 0 }],
    totalMatches := 2, imageWidth := 4, imageHeight := 4,
    templateWidth := 2, templateHeight := 2 }

/-- C1 witness. -/
theorem c1_witness :
    twoHitRes.matches'.Pairwise (fun m1 m2 =>
      ((overlapArea m1.px m1.py m1.pw m1.ph m2.px m2.py m2.pw m2.ph : ℕ) : ℚ) /
        min ((m1.pw * m1.ph : ℕ) : ℚ) ((m2.pw * m2.ph : ℕ) : ℚ) ≤ 1/2) :=
  c1_no_excessive_overlap 4 4 2 2 (1/2) "cv2.TM_CCOEFF_NORMED" twoHitRaw twoHitRes
    (by norm_num) (by norm_num) (by
      have hinv : (decide (parseMethod "cv2.TM_CCOEFF_NORMED" = Method.sqdiff)) = false := by
        decide
      unfold visual_search
      rw [hinv, if_neg (by norm_num), if_neg (by norm_num)]
      norm_num [scanAll, scanRotation, rotatedDims, absSinCos, windowList, List.range_succ,
        scoreAt, twoHitRaw, bind, Except.bind, pure, Except.pure, List.filterMap_cons,
        capDetections, clusterPass, sortDescBy, insertDescBy, clusterStep, tooClose, distSq,
        mkMatch, pyRound4, roundHalfEven, nmsPass, nmsStep, overlapTooBig, overlapArea,
        twoHitRes])

/-- C7 witness: the second returned match carries id 1. -/
theorem c7_witness :
    (twoHitRes.matches'.get ⟨1, by norm_num [twoHitRes]⟩).id = 1 :=
  c7_consecutive_ids 4 4 2 2 (1/2) "cv2.TM_CCOEFF_NORMED" twoHitRaw twoHitRes
    (by norm_num) (by norm_num) (by
      have hinv : (decide (parseMethod "cv2.TM_CCOEFF_NORMED" = Method.sqdiff)) = false := by
        decide
      unfold visual_search
      rw [hinv, if_neg (by norm_num), if_neg (by norm_num)]
      norm_num [scanAll, scanRotation, rotatedDims, absSinCos, windowList, List.range_succ,
        scoreAt, twoHitRaw, bind, Except.bind, pure, Except.pure, List.filterMap_cons,
        capDetections, clusterPass, sortDescBy, insertDescBy, clusterStep, tooClose, distSq,
        mkMatch, pyRound4, roundHalfEven, nmsPass, nmsStep, overlapTooBig, overlapArea,
        twoHitRes])
    1 (by norm_num [twoHitRes])

end VisualSearch
